import Mathlib

/-!
Shallow embedding of the county-boundary resolution program
`src/Phase7/create_Phase7_2020_counties.py`.

Modelling conventions:
* Raster grids are `List (List Nat)`; the `astype(np.uint8)` cast is `% 256`.
* Geometry is abstracted: a county geometry is either its input geometry
  (`Geom.base g`) or the dissolve-union of a current geometry with a list of
  zone ids (`Geom.union`).  Zone polygons are identified by their integer ids.
* Geometric predicates coming from the GIS libraries are oracles supplied as
  input: `intersects` is the `gpd.sjoin(..., op='intersects')` predicate
  between the rasterized county layer and a zone, `interNonempty c z` says the
  overlay of authoritative county `c` with zone `z` produces a row (a
  non-empty geometric intersection), and `interArea c z` is that row's area
  (areas are modelled as naturals; only order and zero-ness matter here).
* Python exceptions are the constructors of `Err`; each constructor's doc
  comment names the concrete exception of the source.
-/

namespace CountyBoundaries

/-- Exceptions the program can raise, one constructor per `raise` site or
library error reachable in `create_Phase7_2020_counties.py`. -/
inductive Err where
  /-- vectorizeRaster line 28–32: `GeoDataFrame.from_features` on an empty
  feature list yields a frame with no `LC`/`geometry` columns, so
  `zones_gdf.LC` (line 31) raises; the source comments
  `need to handle if gdf is empty` on line 28. -/
  | emptyGdf
  /-- shared_area lines 46–49: `np.amax` / `list(...)[0]` on an empty overlay
  result raises. -/
  | emptyOverlay
  /-- run line 120: `raise TypeError` when the shared-area winner equals 0. -/
  | zeroSharedArea
  /-- run line 123: `raise TypeError("Infinite loop?")`. -/
  | infiniteLoop
  /-- run line 100: `raise TypeError` on a county count other than 205. -/
  | invalidCountyCount (n : Nat)
  /-- run line 139: the except branch evaluates the unbound name `index`
  in `cnties.drop(g, axis=index, inplace=True)`, raising NameError. -/
  | nameErrorIndex
deriving DecidableEq, Repr

/-- County geometry, abstractly: the input geometry of county `g`, or the
dissolve of a current geometry with the polygons of a list of zone ids
(run lines 131–133). -/
inductive Geom where
  | base (g : Int)
  | union (cur : Geom) (zs : List Int)
deriving DecidableEq, Repr

/-- Observable stages of `run`, used to record what processing was performed
(and in which order) before a success or an abort. -/
inductive Stage where
  | readRaster
  | vectorize
  | readCounties
  | sjoin
  | countCheck
  | dissolve (g : Int)
  | write
deriving DecidableEq, Repr

/-! ## ZoneVectorizer: `vectorizeRaster` (lines 10–32) -/

/-- Raster grid: rows of cell values. -/
abbrev Grid := List (List Nat)

/-- Cell value at position `(i, j)`, 0 outside the grid. -/
def valAt (a : Grid) (p : Nat × Nat) : Nat :=
  (a.getD p.1 []).getD p.2 0

/-- Vectorization mask `unique_array.astype(bool)` (line 23): a cell is in the
mask iff its value is non-zero. -/
def maskAt (a : Grid) (p : Nat × Nat) : Bool :=
  valAt a p != 0

/-- `unique_array.astype(np.uint8)` (line 19): every cell reduced modulo 256. -/
def toUInt8 (a : Grid) : Grid :=
  a.map (fun row => row.map (fun v => v % 256))

/-- All cell positions of a grid, row-major. -/
def cellsOf (a : Grid) : List (Nat × Nat) :=
  (List.range a.length).flatMap
    (fun i => (List.range (a.getD i []).length).map (fun j => (i, j)))

/-- 4-adjacency of two cell positions (the connectivity used by
`rasterio.features.shapes` by default). -/
def adjB (p q : Nat × Nat) : Bool :=
  (p.1 == q.1 && (p.2 + 1 == q.2 || q.2 + 1 == p.2)) ||
  (p.2 == q.2 && (p.1 + 1 == q.1 || q.1 + 1 == p.1))

/-- Fuel-bounded region growth: repeatedly take a pending cell, and if it
satisfies `ok` and is new, add it to the component together with its
4-neighbours as further pending cells. -/
def grow (ok : Nat × Nat → Bool) (all : List (Nat × Nat)) :
    Nat → List (Nat × Nat) → List (Nat × Nat) → List (Nat × Nat)
  | 0, _, comp => comp
  | _ + 1, [], comp => comp
  | fuel + 1, p :: todo, comp =>
    if comp.contains p || !ok p then grow ok all fuel todo comp
    else grow ok all fuel (todo ++ all.filter (fun q => adjB p q)) (comp ++ [p])

/-- Scan the cells in row-major order; each masked, unvisited cell seeds a
connected region of equal value within the mask, as
`rasterio.features.shapes(unique_array, mask=...)` produces. -/
def scanComps (a : Grid) :
    List (Nat × Nat) → List (Nat × Nat) → List (List (Nat × Nat)) →
    List (List (Nat × Nat))
  | [], _, acc => acc
  | p :: rest, visited, acc =>
    if visited.contains p || !maskAt a p then scanComps a rest visited acc
    else
      let comp := grow (fun q => maskAt a q && (valAt a q == valAt a p))
        (cellsOf a) (((cellsOf a).length + 1) * ((cellsOf a).length + 1)) [p] []
      scanComps a rest (visited ++ comp) (acc ++ [comp])

/-- Connected regions of equal value within the mask of a grid. -/
def componentsOf (a : Grid) : List (List (Nat × Nat)) :=
  scanComps a (cellsOf a) [] []

/-- vectorizeRaster (lines 10–32): cast to uint8, vectorize the connected
regions within the non-zero mask, and return the zone ids `1..N` (line 30).
If no region exists, the empty GeoDataFrame path raises (line 31, see
`Err.emptyGdf`). -/
def vectorizeRaster (a : Grid) : Except Err (List Int) :=
  let comps := componentsOf (toUInt8 a)
  if comps.length = 0 then .error .emptyGdf
  else .ok ((List.range comps.length).map (fun i => (i : Int) + 1))

/-! ## BorderResolver: `shared_area` (lines 34–51) and the per-zone loop
(lines 111–123) -/

/-- Geometric context for resolution: the authoritative county layer
(`origCnties`, line 89–91) and the overlay oracles. -/
structure Ctx where
  origCnties : List Int
  interNonempty : Int → Int → Bool
  interArea : Int → Int → Nat
  replaceFails : Int → Bool

/-- Distinct counties intersecting zone `z` in the adjacency relation:
`list(set(list(tab[tab['zone']==z]['GEOID'])))` (line 114). -/
def touching (tab : List (Int × Int)) (z : Int) : List Int :=
  ((tab.filter (fun p => p.2 == z)).map Prod.fst).dedup

/-- Distinct zones intersecting county `g`:
`list(set(list(tab[tab['GEOID']==g]['zone'])))` (line 104). -/
def zonesOf (tab : List (Int × Int)) (g : Int) : List Int :=
  ((tab.filter (fun p => p.1 == g)).map Prod.snd).dedup

/-- Rows of `gpd.overlay(origCnties[origCnties['GEOID'].isin(oc)],
borderCells[borderCells['zone']==z], how='intersection')` (line 44), in the
order of the authoritative layer: one `(GEOID, area)` row per candidate
county whose authoritative geometry intersects the zone. -/
def overlayRows (ctx : Ctx) (oc : List Int) (z : Int) : List (Int × Nat) :=
  (ctx.origCnties.filter (fun c => oc.contains c && ctx.interNonempty c z)).map
    (fun c => (c, ctx.interArea c z))

/-- Running maximum of the areas of a row list, seeded with `a`
(`np.amax(new_geo['area'])`, line 46). -/
def maxAreas (rs : List (Int × Nat)) (a : Nat) : Nat :=
  rs.foldl (fun m q => max m q.2) a

/-- shared_area (lines 34–51): overlay the candidate counties with the zone,
take the maximum area, and return the GEOID of the first row attaining it
(`list(new_geo[new_geo['area'] == mx]['GEOID'])[0]`, line 49).  `none` models
the `np.amax` exception on an empty overlay. -/
def shared_area (ctx : Ctx) (oc : List Int) (z : Int) : Option Int :=
  match overlayRows ctx oc z with
  | [] => none
  | r :: rs =>
    (((r :: rs).filter (fun q => q.2 == maxAreas rs r.2)).head?).map Prod.fst

/-- Winner of zone `z`: `shared_area` applied to the counties touching `z`,
exactly as `run` line 116 calls it. -/
def winnerOf (ctx : Ctx) (tab : List (Int × Int)) (z : Int) : Option Int :=
  shared_area ctx (touching tab z) z

/-- Body of the per-zone loop (lines 114–120) for county `g` and zone `z`:
when more than one county touches `z`, call `shared_area`; if the winner
differs from `g`, add `z` to `remove_zones`, raising when the winner GEOID
equals 0.  `cal` is a ghost log of the zones for which `shared_area` was
actually computed. -/
def zoneStep (ctx : Ctx) (tab : List (Int × Int)) (g z : Int)
    (remove cal : List Int) : Except Err (List Int × List Int) :=
  if 1 < (touching tab z).length then
    match winnerOf ctx tab z with
    | none => .error .emptyOverlay
    | some w =>
      if w = g then .ok (remove, cal ++ [z])
      else if w = 0 then .error .zeroSharedArea
      else .ok (remove ++ [z], cal ++ [z])
  else .ok (remove, cal)

/-- The per-zone loop with its manual counter (lines 111–123): after each
zone, `ct` is incremented and compared against the zone count `n`; exceeding
it raises `TypeError("Infinite loop?")`. -/
def zonesLoop (ctx : Ctx) (tab : List (Int × Int)) (g : Int) (n : Nat) :
    List Int → Nat → List Int → List Int → Except Err (List Int × List Int)
  | [], _, remove, cal => .ok (remove, cal)
  | z :: rest, ct, remove, cal =>
    match zoneStep ctx tab g z remove cal with
    | .error e => .error e
    | .ok rc =>
      if ct + 1 > n then .error .infiniteLoop
      else zonesLoop ctx tab g n rest (ct + 1) rc.1 rc.2

/-- Resolution of one county's candidate zones (lines 104–126): skip when no
zone touches `g` (line 107), run the per-zone loop, and subtract
`remove_zones` (line 126).  Returns `(zones_to_dissolve, remove_zones,
shared_area_calls)`. -/
def ownedFull (ctx : Ctx) (tab : List (Int × Int)) (g : Int) :
    Except Err (List Int × List Int × List Int) :=
  let zones := zonesOf tab g
  if zones.length = 0 then .ok ([], [], [])
  else
    match zonesLoop ctx tab g zones.length zones 0 [] [] with
    | .error e => .error e
    | .ok rc => .ok (zones.filter (fun z => !rc.1.contains z), rc.1, rc.2)

/-- The zones-to-dissolve list of county `g` after resolution. -/
def ownedZonesE (ctx : Ctx) (tab : List (Int × Int)) (g : Int) :
    Except Err (List Int) :=
  match ownedFull ctx tab g with
  | .error e => .error e
  | .ok t => .ok t.1

/-- Whether county `g` retains zone `z` in its zones-to-dissolve list after
resolution (false when resolution aborted). -/
def retainsB (ctx : Ctx) (tab : List (Int × Int)) (g z : Int) : Bool :=
  match ownedZonesE ctx tab g with
  | .error _ => false
  | .ok l => l.contains z

/-! ## CountyIndex and DissolveEngine (lines 101, 127–141) -/

/-- First geometry stored under key `g` in the index (`cnties.loc[[g]]`). -/
def lookupGeom : List (Int × Geom) → Int → Option Geom
  | [], _ => none
  | p :: rest, g => if p.1 == g then some p.2 else lookupGeom rest g

/-- Replace the geometry of every entry keyed `g`
(`cnties.loc[g, 'geometry'] = ...`, line 137). -/
def updateGeom (idx : List (Int × Geom)) (g : Int) (x : Geom) :
    List (Int × Geom) :=
  idx.map (fun p => if p.1 == g then (g, x) else p)

/-- The initial county index: `cnties.set_index('GEOID')` (line 101), each
county with its input geometry. -/
def initIdx (geoids : List Int) : List (Int × Geom) :=
  geoids.map (fun g => (g, Geom.base g))

/-- Processing of one county (lines 104–141): resolve its zones; when the
final list is non-empty, dissolve them into the county's current geometry and
replace the index entry.  When the replace raises (oracle `replaceFails`),
the bare `except` branch evaluates the unbound name `index` (line 139) and so
raises NameError.  Emits a `Stage.dissolve` event when a dissolve happened. -/
def countyStep (ctx : Ctx) (tab : List (Int × Int)) (idx : List (Int × Geom))
    (g : Int) : Except Err (List (Int × Geom) × List Stage) :=
  match ownedFull ctx tab g with
  | .error e => .error e
  | .ok t =>
    if t.1.length = 0 then .ok (idx, [])
    else
      if ctx.replaceFails g then .error .nameErrorIndex
      else
        .ok (updateGeom idx g
          (Geom.union ((lookupGeom idx g).getD (Geom.base g)) t.1),
          [.dissolve g])

/-- The dissolve loop over all counties (`for g in geoids`, line 102),
threading the mutable index and accumulating the stage trace. -/
def dissolveLoop (ctx : Ctx) (tab : List (Int × Int)) :
    List Int → List (Int × Geom) → List Stage →
    List Stage × Except Err (List (Int × Geom))
  | [], idx, tr => (tr, .ok idx)
  | g :: gs, idx, tr =>
    match countyStep ctx tab idx g with
    | .error e => (tr, .error e)
    | .ok p => dissolveLoop ctx tab gs p.1 (tr ++ p.2)

/-! ## The whole `run` (lines 53–145) -/

/-- Inputs of `run`: the extent raster, the 10 m county raster with its
nodata value, the GEOID lists of the two county layers, and the geometric
oracles. -/
structure RunInput where
  extent : Grid
  countyRas : Grid
  nodata : Nat
  cnties : List Int
  origCnties : List Int
  intersects : Int → Int → Bool
  interNonempty : Int → Int → Bool
  interArea : Int → Int → Nat
  replaceFails : Int → Bool

/-- Result of a run: the trace of performed stages and the outcome. -/
structure RunOut where
  trace : List Stage
  result : Except Err (List (Int × Geom))

/-- Resolution context derived from the run input. -/
def ctxOf (inp : RunInput) : Ctx :=
  ⟨inp.origCnties, inp.interNonempty, inp.interArea, inp.replaceFails⟩

/-- `np.where(ary == 100, 0, ary)` (line 66): zero the fully-resolved cells. -/
def where100 (a : Grid) : Grid :=
  a.map (fun row => row.map (fun v => if v == 100 then 0 else v))

/-- `np.where(mask != nodata, 1, 0).astype(bool)` (line 73). -/
def countyMaskOf (r : Grid) (nodata : Nat) : List (List Bool) :=
  r.map (fun row => row.map (fun v => v != nodata))

/-- `np.where(mask, 0, ary)` (line 76): zero cells already accounted for. -/
def applyMask (a : Grid) (m : List (List Bool)) : Grid :=
  List.zipWith (fun row mrow => List.zipWith (fun v b => if b then 0 else v) row mrow) a m

/-- The masked border-pixel array handed to `vectorizeRaster` (lines 62–80). -/
def aryOf (inp : RunInput) : Grid :=
  applyMask (where100 inp.extent) (countyMaskOf inp.countyRas inp.nodata)

/-- The border zones produced by step 2 of `run` (line 80). -/
def borderZonesOf (inp : RunInput) : Except Err (List Int) :=
  vectorizeRaster (aryOf inp)

/-- `gpd.sjoin(cnties, borderCells, op='intersects', how='inner')`
(line 95): one `(GEOID, zone)` pair per intersecting combination. -/
def sjoinTab (cnties : List Int) (zones : List Int) (pred : Int → Int → Bool) :
    List (Int × Int) :=
  cnties.flatMap (fun g => (zones.filter (fun z => pred g z)).map (fun z => (g, z)))

/-- The zone-county adjacency relation of the run (empty when vectorization
already failed). -/
def tabOf (inp : RunInput) : List (Int × Int) :=
  match borderZonesOf inp with
  | .error _ => []
  | .ok zs => sjoinTab inp.cnties zs inp.intersects

/-- The whole `run` (lines 53–145): read and mask the rasters, vectorize the
border cells, read the county layers, spatial-join, check the county count
(line 99 — after vectorization and the join), run the dissolve loop, and
write.  The trace records the stages actually performed, in order. -/
def run (inp : RunInput) : RunOut :=
  match borderZonesOf inp with
  | .error e => ⟨[.readRaster, .vectorize], .error e⟩
  | .ok _ =>
    if inp.cnties.length = 205 then
      let p := dissolveLoop (ctxOf inp) (tabOf inp) inp.cnties
        (initIdx inp.cnties) []
      match p.2 with
      | .error e =>
        ⟨[.readRaster, .vectorize, .readCounties, .sjoin, .countCheck] ++ p.1,
          .error e⟩
      | .ok idx =>
        ⟨[.readRaster, .vectorize, .readCounties, .sjoin, .countCheck] ++ p.1
            ++ [.write],
          .ok idx⟩
    else
      ⟨[.readRaster, .vectorize, .readCounties, .sjoin, .countCheck],
        .error (.invalidCountyCount inp.cnties.length)⟩

/-- Success test for a run outcome. -/
def isOkE (r : Except Err (List (Int × Geom))) : Bool :=
  match r with
  | .ok _ => true
  | .error _ => false

/-! ## Basic lemmas about the adjacency relation -/

theorem mem_touching_iff (tab : List (Int × Int)) (z g : Int) :
    g ∈ touching tab z ↔ (g, z) ∈ tab := by
  unfold touching
  rw [List.mem_dedup, List.mem_map]
  constructor
  · rintro ⟨⟨a, b⟩, hm, rfl⟩
    rw [List.mem_filter] at hm
    obtain ⟨hmem, hb⟩ := hm
    simp only [beq_iff_eq] at hb
    simpa [hb] using hmem
  · intro h
    exact ⟨(g, z), List.mem_filter.mpr ⟨h, by simp⟩, rfl⟩

theorem mem_zonesOf_iff (tab : List (Int × Int)) (g z : Int) :
    z ∈ zonesOf tab g ↔ (g, z) ∈ tab := by
  unfold zonesOf
  rw [List.mem_dedup, List.mem_map]
  constructor
  · rintro ⟨⟨a, b⟩, hm, rfl⟩
    rw [List.mem_filter] at hm
    obtain ⟨hmem, ha⟩ := hm
    simp only [beq_iff_eq] at ha
    simpa [ha] using hmem
  · intro h
    exact ⟨(g, z), List.mem_filter.mpr ⟨h, by simp⟩, rfl⟩

theorem nodup_touching (tab : List (Int × Int)) (z : Int) :
    (touching tab z).Nodup :=
  List.nodup_dedup _

theorem eq_of_mem_length_le_one {α : Type} {l : List α} (hlen : l.length ≤ 1)
    {a b : α} (ha : a ∈ l) (hb : b ∈ l) : a = b := by
  match l with
  | [] => cases ha
  | [x] =>
    rw [List.mem_singleton] at ha hb
    rw [ha, hb]
  | x :: y :: rest => simp at hlen

/-! ## Lemmas about `shared_area` -/

theorem le_maxAreas (rs : List (Int × Nat)) (a : Nat) : a ≤ maxAreas rs a := by
  induction rs generalizing a with
  | nil => exact Nat.le_refl a
  | cons r rest ih =>
    exact Nat.le_trans (Nat.le_max_left a r.2) (ih (max a r.2))

theorem mem_le_maxAreas (rs : List (Int × Nat)) (a : Nat) :
    ∀ q ∈ rs, q.2 ≤ maxAreas rs a := by
  induction rs generalizing a with
  | nil => intro q hq; cases hq
  | cons r rest ih =>
    intro q hq
    rcases List.mem_cons.mp hq with h | h
    · subst h
      exact Nat.le_trans (Nat.le_max_right a q.2) (le_maxAreas rest _)
    · exact ih (max a r.2) q h

theorem maxAreas_attained (rs : List (Int × Nat)) (a : Nat) :
    maxAreas rs a = a ∨ ∃ q ∈ rs, maxAreas rs a = q.2 := by
  induction rs generalizing a with
  | nil => exact Or.inl rfl
  | cons r rest ih =>
    rcases ih (max a r.2) with h | ⟨q, hq, hval⟩
    · rcases Nat.le_total a r.2 with hle | hle
      · refine Or.inr ⟨r, List.mem_cons_self .., ?_⟩
        unfold maxAreas at h ⊢
        rw [List.foldl_cons, h, Nat.max_eq_right hle]
      · refine Or.inl ?_
        unfold maxAreas at h ⊢
        rw [List.foldl_cons, h, Nat.max_eq_left hle]
    · exact Or.inr ⟨q, List.mem_cons_of_mem _ hq, hval⟩

theorem mem_overlayRows (ctx : Ctx) (oc : List Int) (z : Int) :
    ∀ q ∈ overlayRows ctx oc z,
      q.1 ∈ ctx.origCnties ∧ q.1 ∈ oc ∧ q.2 = ctx.interArea q.1 z := by
  intro q hq
  unfold overlayRows at hq
  rw [List.mem_map] at hq
  obtain ⟨c, hc, rfl⟩ := hq
  rw [List.mem_filter] at hc
  obtain ⟨hmem, hcond⟩ := hc
  rw [Bool.and_eq_true] at hcond
  exact ⟨hmem, List.elem_iff.mp hcond.1, rfl⟩

theorem overlayRows_mem_of (ctx : Ctx) (oc : List Int) (z A : Int)
    (hAo : A ∈ ctx.origCnties) (hAoc : A ∈ oc)
    (hAn : ctx.interNonempty A z = true) :
    (A, ctx.interArea A z) ∈ overlayRows ctx oc z := by
  unfold overlayRows
  rw [List.mem_map]
  refine ⟨A, List.mem_filter.mpr ⟨hAo, ?_⟩, rfl⟩
  rw [Bool.and_eq_true]
  exact ⟨List.elem_iff.mpr hAoc, hAn⟩

/-- If county `A` occurs among the overlay rows and every row of a different
county has a strictly smaller area, `shared_area` returns `A`. -/
theorem shared_area_strict_max (ctx : Ctx) (oc : List Int) (z A : Int)
    (hmem : (A, ctx.interArea A z) ∈ overlayRows ctx oc z)
    (hlt : ∀ q ∈ overlayRows ctx oc z, q.1 ≠ A → q.2 < ctx.interArea A z) :
    shared_area ctx oc z = some A := by
  rcases hrows : overlayRows ctx oc z with _ | ⟨r, rs⟩
  · rw [hrows] at hmem; cases hmem
  · simp only [shared_area, hrows]
    rw [hrows] at hmem hlt
    have hmax_ge : ctx.interArea A z ≤ maxAreas rs r.2 := by
      rcases List.mem_cons.mp hmem with h | h
      · rw [← h]; exact le_maxAreas rs _
      · exact mem_le_maxAreas rs r.2 _ h
    have hmax_eq : maxAreas rs r.2 = ctx.interArea A z := by
      rcases maxAreas_attained rs r.2 with h | ⟨q, hq, hval⟩
      · by_cases hr : r.1 = A
        · have := (mem_overlayRows ctx oc z r (by rw [hrows]; exact List.mem_cons_self ..)).2.2
          rw [hr] at this
          rw [h, this]
        · have := hlt r (List.mem_cons_self ..) hr
          rw [← h] at this
          exact absurd hmax_ge (Nat.not_le_of_lt this)
      · by_cases hq1 : q.1 = A
        · have := (mem_overlayRows ctx oc z q (by rw [hrows]; exact List.mem_cons_of_mem _ hq)).2.2
          rw [hq1] at this
          rw [hval, this]
        · have := hlt q (List.mem_cons_of_mem _ hq) hq1
          rw [← hval] at this
          exact absurd hmax_ge (Nat.not_le_of_lt this)
    have hA_in_filter :
        (A, ctx.interArea A z) ∈
          (r :: rs).filter (fun q => q.2 == maxAreas rs r.2) := by
      rw [List.mem_filter]
      exact ⟨hmem, by rw [hmax_eq]; simp⟩
    rcases hfil : (r :: rs).filter (fun q => q.2 == maxAreas rs r.2) with _ | ⟨p, ps⟩
    · rw [hfil] at hA_in_filter; cases hA_in_filter
    · have hp_mem : p ∈ (r :: rs).filter (fun q => q.2 == maxAreas rs r.2) := by
        rw [hfil]; exact List.mem_cons_self ..
      rw [List.mem_filter] at hp_mem
      obtain ⟨hp_in, hp_eq⟩ := hp_mem
      simp only [beq_iff_eq] at hp_eq
      have hp1 : p.1 = A := by
        by_contra hne
        have := hlt p hp_in hne
        rw [hp_eq, hmax_eq] at this
        exact Nat.lt_irrefl _ this
      rw [hfil]
      simp [hp1]

/-! ## Lemmas about the per-zone loop -/

theorem zoneStep_ok_cases (ctx : Ctx) (tab : List (Int × Int)) (g z : Int)
    (remove cal : List Int) (rc : List Int × List Int)
    (h : zoneStep ctx tab g z remove cal = .ok rc) :
    (¬ 1 < (touching tab z).length ∧ rc = (remove, cal)) ∨
    (1 < (touching tab z).length ∧ winnerOf ctx tab z = some g ∧
      rc = (remove, cal ++ [z])) ∨
    (1 < (touching tab z).length ∧
      (∃ w, winnerOf ctx tab z = some w ∧ w ≠ g) ∧
      rc = (remove ++ [z], cal ++ [z])) := by
  unfold zoneStep at h
  by_cases hbig : 1 < (touching tab z).length
  · rw [if_pos hbig] at h
    rcases hw : winnerOf ctx tab z with _ | w
    · simp only [hw] at h
      exact Except.noConfusion h
    · simp only [hw] at h
      by_cases hwg : w = g
      · rw [if_pos hwg] at h
        refine Or.inr (Or.inl ⟨hbig, ?_, (Except.ok.inj h).symm⟩)
        rw [hwg]
      · rw [if_neg hwg] at h
        by_cases hw0 : w = 0
        · rw [if_pos hw0] at h; exact Except.noConfusion h
        · rw [if_neg hw0] at h
          exact Or.inr (Or.inr ⟨hbig, ⟨w, rfl, hwg⟩, (Except.ok.inj h).symm⟩)
  · rw [if_neg hbig] at h
    exact Or.inl ⟨hbig, (Except.ok.inj h).symm⟩

theorem zoneStep_error_cases (ctx : Ctx) (tab : List (Int × Int)) (g z : Int)
    (remove cal : List Int) (e : Err)
    (h : zoneStep ctx tab g z remove cal = .error e) :
    e = .emptyOverlay ∨ e = .zeroSharedArea := by
  unfold zoneStep at h
  by_cases hbig : 1 < (touching tab z).length
  · rw [if_pos hbig] at h
    rcases hw : winnerOf ctx tab z with _ | w
    · simp only [hw] at h
      exact Or.inl (Except.error.inj h).symm
    · simp only [hw] at h
      by_cases hwg : w = g
      · rw [if_pos hwg] at h; exact Except.noConfusion h
      · rw [if_neg hwg] at h
        by_cases hw0 : w = 0
        · rw [if_pos hw0] at h
          exact Or.inr (Except.error.inj h).symm
        · rw [if_neg hw0] at h; exact Except.noConfusion h
  · rw [if_neg hbig] at h; exact Except.noConfusion h

/-- The manual-counter check never fires when the loop starts with
`ct + rest.length ≤ n`. -/
theorem zonesLoop_no_inf (ctx : Ctx) (tab : List (Int × Int)) (g : Int)
    (n : Nat) :
    ∀ (rest : List Int) (ct : Nat) (remove cal : List Int),
    ct + rest.length ≤ n →
    zonesLoop ctx tab g n rest ct remove cal ≠ .error .infiniteLoop := by
  intro rest
  induction rest with
  | nil =>
    intro ct remove cal _ hcontra
    simp only [zonesLoop] at hcontra
    exact Except.noConfusion hcontra
  | cons z0 rest ih =>
    intro ct remove cal hle hcontra
    simp only [zonesLoop] at hcontra
    rcases hz : zoneStep ctx tab g z0 remove cal with e | rc
    · simp only [hz] at hcontra
      have he : e = .infiniteLoop := Except.error.inj hcontra
      rcases zoneStep_error_cases ctx tab g z0 remove cal e hz with h | h <;>
        (rw [he] at h; exact Err.noConfusion h)
    · simp only [hz] at hcontra
      have hct : ¬ ct + 1 > n := by
        simp only [List.length_cons] at hle; omega
      rw [if_neg hct] at hcontra
      exact ih (ct + 1) rc.1 rc.2 (by simp only [List.length_cons] at hle; omega)
        hcontra

/-- Characterization of `remove_zones` and of the zones for which the loop
computed `shared_area`, for a successful run of the per-zone loop. -/
theorem zonesLoop_char (ctx : Ctx) (tab : List (Int × Int)) (g : Int)
    (n : Nat) :
    ∀ (rest : List Int) (ct : Nat) (remove cal rem cf : List Int),
    zonesLoop ctx tab g n rest ct remove cal = .ok (rem, cf) →
    ∀ z,
      (z ∈ rem ↔ z ∈ remove ∨
        (z ∈ rest ∧ 1 < (touching tab z).length ∧
          winnerOf ctx tab z ≠ some g)) ∧
      (z ∈ cf ↔ z ∈ cal ∨ (z ∈ rest ∧ 1 < (touching tab z).length)) := by
  intro rest
  induction rest with
  | nil =>
    intro ct remove cal rem cf h z
    simp only [zonesLoop, Except.ok.injEq, Prod.mk.injEq] at h
    obtain ⟨h1, h2⟩ := h
    subst h1; subst h2
    simp
  | cons z0 rest ih =>
    intro ct remove cal rem cf h z
    simp only [zonesLoop] at h
    rcases hz : zoneStep ctx tab g z0 remove cal with e | rc
    · simp only [hz] at h
      exact Except.noConfusion h
    · simp only [hz] at h
      by_cases hct : ct + 1 > n
      · rw [if_pos hct] at h; exact Except.noConfusion h
      · rw [if_neg hct] at h
        have IH := ih (ct + 1) rc.1 rc.2 rem cf h z
        rcases zoneStep_ok_cases ctx tab g z0 remove cal rc hz with
          ⟨hsmall, hrc⟩ | ⟨hbig, hwin, hrc⟩ | ⟨hbig, ⟨w, hw, hwne⟩, hrc⟩
        · have h1 : rc.1 = remove := by rw [hrc]
          have h2 : rc.2 = cal := by rw [hrc]
          rw [h1, h2] at IH
          refine ⟨⟨fun hin => ?_, fun hin => ?_⟩,
            ⟨fun hin => ?_, fun hin => ?_⟩⟩
          · rcases IH.1.mp hin with h' | ⟨hzr, hp⟩
            · exact Or.inl h'
            · exact Or.inr ⟨List.mem_cons_of_mem _ hzr, hp⟩
          · rcases hin with h' | ⟨hzr, hp⟩
            · exact IH.1.mpr (Or.inl h')
            · rcases List.mem_cons.mp hzr with rfl | hzr'
              · exact absurd hp.1 hsmall
              · exact IH.1.mpr (Or.inr ⟨hzr', hp⟩)
          · rcases IH.2.mp hin with h' | ⟨hzr, hq⟩
            · exact Or.inl h'
            · exact Or.inr ⟨List.mem_cons_of_mem _ hzr, hq⟩
          · rcases hin with h' | ⟨hzr, hq⟩
            · exact IH.2.mpr (Or.inl h')
            · rcases List.mem_cons.mp hzr with rfl | hzr'
              · exact absurd hq hsmall
              · exact IH.2.mpr (Or.inr ⟨hzr', hq⟩)
        · have h1 : rc.1 = remove := by rw [hrc]
          have h2 : rc.2 = cal ++ [z0] := by rw [hrc]
          rw [h1, h2] at IH
          have hnp : ¬ winnerOf ctx tab z0 ≠ some g := fun hc => hc hwin
          refine ⟨⟨fun hin => ?_, fun hin => ?_⟩,
            ⟨fun hin => ?_, fun hin => ?_⟩⟩
          · rcases IH.1.mp hin with h' | ⟨hzr, hp⟩
            · exact Or.inl h'
            · exact Or.inr ⟨List.mem_cons_of_mem _ hzr, hp⟩
          · rcases hin with h' | ⟨hzr, hp⟩
            · exact IH.1.mpr (Or.inl h')
            · rcases List.mem_cons.mp hzr with rfl | hzr'
              · exact absurd hp.2 hnp
              · exact IH.1.mpr (Or.inr ⟨hzr', hp⟩)
          · rcases IH.2.mp hin with h' | ⟨hzr, hq⟩
            · rcases List.mem_append.mp h' with h'' | h''
              · exact Or.inl h''
              · rw [List.mem_singleton] at h''
                subst h''
                exact Or.inr ⟨List.mem_cons_self .., hbig⟩
            · exact Or.inr ⟨List.mem_cons_of_mem _ hzr, hq⟩
          · rcases hin with h' | ⟨hzr, hq⟩
            · exact IH.2.mpr (Or.inl (List.mem_append_left _ h'))
            · rcases List.mem_cons.mp hzr with rfl | hzr'
              · exact IH.2.mpr (Or.inl (List.mem_append_right _
                  (List.mem_singleton.mpr rfl)))
              · exact IH.2.mpr (Or.inr ⟨hzr', hq⟩)
        · have h1 : rc.1 = remove ++ [z0] := by rw [hrc]
          have h2 : rc.2 = cal ++ [z0] := by rw [hrc]
          rw [h1, h2] at IH
          have hp0 : winnerOf ctx tab z0 ≠ some g := by
            rw [hw]
            intro hc
            exact hwne (Option.some.inj hc)
          refine ⟨⟨fun hin => ?_, fun hin => ?_⟩,
            ⟨fun hin => ?_, fun hin => ?_⟩⟩
          · rcases IH.1.mp hin with h' | ⟨hzr, hp⟩
            · rcases List.mem_append.mp h' with h'' | h''
              · exact Or.inl h''
              · rw [List.mem_singleton] at h''
                subst h''
                exact Or.inr ⟨List.mem_cons_self .., hbig, hp0⟩
            · exact Or.inr ⟨List.mem_cons_of_mem _ hzr, hp⟩
          · rcases hin with h' | ⟨hzr, hp⟩
            · exact IH.1.mpr (Or.inl (List.mem_append_left _ h'))
            · rcases List.mem_cons.mp hzr with rfl | hzr'
              · exact IH.1.mpr (Or.inl (List.mem_append_right _
                  (List.mem_singleton.mpr rfl)))
              · exact IH.1.mpr (Or.inr ⟨hzr', hp⟩)
          · rcases IH.2.mp hin with h' | ⟨hzr, hq⟩
            · rcases List.mem_append.mp h' with h'' | h''
              · exact Or.inl h''
              · rw [List.mem_singleton] at h''
                subst h''
                exact Or.inr ⟨List.mem_cons_self .., hbig⟩
            · exact Or.inr ⟨List.mem_cons_of_mem _ hzr, hq⟩
          · rcases hin with h' | ⟨hzr, hq⟩
            · exact IH.2.mpr (Or.inl (List.mem_append_left _ h'))
            · rcases List.mem_cons.mp hzr with rfl | hzr'
              · exact IH.2.mpr (Or.inl (List.mem_append_right _
                  (List.mem_singleton.mpr rfl)))
              · exact IH.2.mpr (Or.inr ⟨hzr', hq⟩)

/-! ## Characterization of one county's resolution result -/

theorem bang_contains_iff (l : List Int) (z : Int) :
    ((!l.contains z) = true) ↔ z ∉ l := by
  rw [Bool.not_eq_true', Bool.eq_false_iff]
  exact not_congr ⟨fun h => List.elem_iff.mp h, fun h => List.elem_iff.mpr h⟩

/-- For a successful resolution of county `g`: membership in the final
zones-to-dissolve list, in `remove_zones`, and in the set of zones for which
`shared_area` was computed, in terms of the adjacency relation and the
winner function. -/
theorem ownedFull_char (ctx : Ctx) (tab : List (Int × Int)) (g : Int)
    (fl rl cl : List Int) (h : ownedFull ctx tab g = .ok (fl, rl, cl)) :
    ∀ z,
      (z ∈ fl ↔ z ∈ zonesOf tab g ∧
        ((touching tab z).length ≤ 1 ∨ winnerOf ctx tab z = some g)) ∧
      (z ∈ rl ↔ z ∈ zonesOf tab g ∧ 1 < (touching tab z).length ∧
        winnerOf ctx tab z ≠ some g) ∧
      (z ∈ cl ↔ z ∈ zonesOf tab g ∧ 1 < (touching tab z).length) := by
  intro z
  unfold ownedFull at h
  by_cases hz : (zonesOf tab g).length = 0
  · rw [if_pos hz] at h
    have hnil : zonesOf tab g = [] := List.length_eq_zero.mp hz
    have heq := Except.ok.inj h
    simp only [Prod.mk.injEq] at heq
    obtain ⟨h1, h2, h3⟩ := heq
    subst h1; subst h2; subst h3
    simp [hnil]
  · rw [if_neg hz] at h
    rcases hloop : zonesLoop ctx tab g (zonesOf tab g).length (zonesOf tab g)
        0 [] [] with e | ⟨rem, cf⟩
    · simp only [hloop] at h; exact Except.noConfusion h
    · simp only [hloop] at h
      have heq := Except.ok.inj h
      simp only [Prod.mk.injEq] at heq
      obtain ⟨h1, h2, h3⟩ := heq
      subst h1; subst h2; subst h3
      have hchar := zonesLoop_char ctx tab g (zonesOf tab g).length
        (zonesOf tab g) 0 [] [] rem cf hloop z
      simp only [List.not_mem_nil, false_or] at hchar
      refine ⟨?_, hchar.1, hchar.2⟩
      rw [List.mem_filter]
      constructor
      · rintro ⟨hzin, hnc⟩
        refine ⟨hzin, ?_⟩
        have hnotin : z ∉ rem := (bang_contains_iff rem z).mp hnc
        rw [hchar.1] at hnotin
        by_cases hbig : 1 < (touching tab z).length
        · right
          by_contra hne
          exact hnotin ⟨hzin, hbig, hne⟩
        · exact Or.inl (Nat.le_of_not_lt hbig)
      · rintro ⟨hzin, hcond⟩
        refine ⟨hzin, (bang_contains_iff rem z).mpr ?_⟩
        rw [hchar.1]
        rintro ⟨_, hbig, hne⟩
        rcases hcond with hle | heq
        · exact absurd hbig (Nat.not_lt.mpr hle)
        · exact hne heq

theorem ownedZonesE_eq_ok (ctx : Ctx) (tab : List (Int × Int)) (g : Int)
    (l : List Int) :
    ownedZonesE ctx tab g = .ok l ↔
      ∃ rl cl, ownedFull ctx tab g = .ok (l, rl, cl) := by
  unfold ownedZonesE
  rcases hof : ownedFull ctx tab g with e | t
  · constructor
    · intro h; exact Except.noConfusion h
    · rintro ⟨rl, cl, hc⟩; exact Except.noConfusion hc
  · constructor
    · intro h
      have ht1 : t.1 = l := Except.ok.inj h
      exact ⟨t.2.1, t.2.2, by rw [← ht1]⟩
    · rintro ⟨rl, cl, hc⟩
      have := Except.ok.inj hc
      rw [this]

theorem retains_char (ctx : Ctx) (tab : List (Int × Int)) (g z : Int)
    (h : retainsB ctx tab g z = true) :
    z ∈ zonesOf tab g ∧
      ((touching tab z).length ≤ 1 ∨ winnerOf ctx tab z = some g) := by
  unfold retainsB at h
  rcases ho : ownedZonesE ctx tab g with e | l
  · simp only [ho] at h
    exact Bool.noConfusion h
  · simp only [ho] at h
    obtain ⟨rl, cl, hof⟩ := (ownedZonesE_eq_ok ctx tab g l).mp ho
    exact ((ownedFull_char ctx tab g l rl cl hof z).1).mp (List.elem_iff.mp h)

/-- Two counties that both retain a zone after resolution are equal. -/
theorem retains_unique (ctx : Ctx) (tab : List (Int × Int)) (z g g' : Int)
    (h : retainsB ctx tab g z = true) (h' : retainsB ctx tab g' z = true) :
    g = g' := by
  obtain ⟨hz, hc⟩ := retains_char ctx tab g z h
  obtain ⟨hz', hc'⟩ := retains_char ctx tab g' z h'
  have hg : g ∈ touching tab z :=
    (mem_touching_iff tab z g).mpr ((mem_zonesOf_iff tab g z).mp hz)
  have hg' : g' ∈ touching tab z :=
    (mem_touching_iff tab z g').mpr ((mem_zonesOf_iff tab g' z).mp hz')
  rcases hc with hle | heq
  · exact eq_of_mem_length_le_one hle hg hg'
  · rcases hc' with hle' | heq'
    · exact eq_of_mem_length_le_one hle' hg hg'
    · exact Option.some.inj (heq.symm.trans heq')

theorem filter_length_le_one {p : Int → Bool} {l : List Int} (hnd : l.Nodup)
    (huniq : ∀ a b, p a = true → p b = true → a = b) :
    (l.filter p).length ≤ 1 := by
  induction l with
  | nil => simp
  | cons a rest ih =>
    rcases List.nodup_cons.mp hnd with ⟨hna, hndr⟩
    by_cases hpa : p a = true
    · rw [List.filter_cons_of_pos hpa]
      have hrest : rest.filter p = [] := by
        rw [List.filter_eq_nil_iff]
        intro b hb hpb
        cases huniq a b hpa hpb
        exact hna hb
      rw [hrest]
      simp
    · rw [List.filter_cons_of_neg hpa]
      exact ih hndr

/-! ## Error-freedom of the counter check, and index preservation -/

theorem ownedFull_no_inf (ctx : Ctx) (tab : List (Int × Int)) (g : Int) :
    ownedFull ctx tab g ≠ .error .infiniteLoop := by
  unfold ownedFull
  by_cases hz : (zonesOf tab g).length = 0
  · rw [if_pos hz]; exact fun h => Except.noConfusion h
  · rw [if_neg hz]
    rcases hl : zonesLoop ctx tab g (zonesOf tab g).length (zonesOf tab g)
        0 [] [] with e | rc
    · simp only [hl]
      intro hc
      have he : e = .infiniteLoop := Except.error.inj hc
      subst he
      exact zonesLoop_no_inf ctx tab g (zonesOf tab g).length (zonesOf tab g)
        0 [] [] (by omega) hl
    · simp only [hl]; exact fun h => Except.noConfusion h

theorem countyStep_no_inf (ctx : Ctx) (tab : List (Int × Int))
    (idx : List (Int × Geom)) (g : Int) :
    countyStep ctx tab idx g ≠ .error .infiniteLoop := by
  unfold countyStep
  rcases hof : ownedFull ctx tab g with e | t
  · simp only [hof]
    intro hc
    have he : e = .infiniteLoop := Except.error.inj hc
    subst he
    exact ownedFull_no_inf ctx tab g hof
  · simp only [hof]
    by_cases hlen : t.1.length = 0
    · rw [if_pos hlen]; exact fun h => Except.noConfusion h
    · rw [if_neg hlen]
      by_cases hrf : ctx.replaceFails g = true
      · rw [if_pos hrf]
        intro hc
        exact Err.noConfusion (Except.error.inj hc)
      · rw [if_neg hrf]; exact fun h => Except.noConfusion h

theorem dissolveLoop_no_inf (ctx : Ctx) (tab : List (Int × Int)) :
    ∀ (gs : List Int) (idx : List (Int × Geom)) (tr : List Stage),
    (dissolveLoop ctx tab gs idx tr).2 ≠ .error .infiniteLoop := by
  intro gs
  induction gs with
  | nil =>
    intro idx tr h
    exact Except.noConfusion h
  | cons g0 gs ih =>
    intro idx tr h
    simp only [dissolveLoop] at h
    rcases hcs : countyStep ctx tab idx g0 with e | p
    · simp only [hcs] at h
      have he : e = .infiniteLoop := Except.error.inj h
      subst he
      exact countyStep_no_inf ctx tab idx g0 hcs
    · simp only [hcs] at h
      exact ih p.1 (tr ++ p.2) h

theorem vectorizeRaster_error (a : Grid) (e : Err)
    (h : vectorizeRaster a = .error e) : e = .emptyGdf := by
  unfold vectorizeRaster at h
  by_cases hc : (componentsOf (toUInt8 a)).length = 0
  · rw [if_pos hc] at h
    exact (Except.error.inj h).symm
  · rw [if_neg hc] at h
    exact Except.noConfusion h

/-! ## County-index lookup and update -/

theorem lookupGeom_updateGeom_ne (idx : List (Int × Geom)) (g g' : Int)
    (x : Geom) (h : g ≠ g') :
    lookupGeom (updateGeom idx g' x) g = lookupGeom idx g := by
  induction idx with
  | nil => rfl
  | cons p rest ih =>
    simp only [updateGeom, List.map_cons] at ih ⊢
    by_cases hp : (p.1 == g') = true
    · rw [if_pos hp]
      simp only [lookupGeom]
      have hne : ¬ ((g' == g) = true) := fun hc =>
        h ((beq_iff_eq.mp hc).symm)
      have hne2 : ¬ ((p.1 == g) = true) := fun hc =>
        h (by rw [← beq_iff_eq.mp hc, beq_iff_eq.mp hp])
      rw [if_neg hne, if_neg hne2]
      exact ih
    · rw [if_neg hp]
      simp only [lookupGeom]
      by_cases hg : (p.1 == g) = true
      · rw [if_pos hg, if_pos hg]
      · rw [if_neg hg, if_neg hg]
        exact ih

theorem lookupGeom_initIdx (l : List Int) (g : Int) (h : g ∈ l) :
    lookupGeom (initIdx l) g = some (Geom.base g) := by
  induction l with
  | nil => cases h
  | cons a rest ih =>
    simp only [initIdx, List.map_cons, lookupGeom] at ih ⊢
    by_cases ha : ((a, Geom.base a).1 == g) = true
    · rw [if_pos ha]
      have : a = g := beq_iff_eq.mp ha
      rw [this]
    · rw [if_neg ha]
      rcases List.mem_cons.mp h with rfl | hr
      · exact absurd (beq_iff_eq.mpr rfl) ha
      · exact ih hr

/-- A successful `countyStep` for county `g'` leaves the stored geometry of
`g` untouched when `g' ≠ g` or when `g`'s final zone list is empty. -/
theorem countyStep_preserve (ctx : Ctx) (tab : List (Int × Int))
    (idx : List (Int × Geom)) (g' g : Int) (idx' : List (Int × Geom))
    (st : List Stage) (h : countyStep ctx tab idx g' = .ok (idx', st))
    (hcase : g' ≠ g ∨ ownedZonesE ctx tab g = .ok []) :
    lookupGeom idx' g = lookupGeom idx g := by
  unfold countyStep at h
  rcases hof : ownedFull ctx tab g' with e | t
  · simp only [hof] at h; exact Except.noConfusion h
  · simp only [hof] at h
    by_cases hlen : t.1.length = 0
    · rw [if_pos hlen] at h
      have heq := Except.ok.inj h
      simp only [Prod.mk.injEq] at heq
      rw [heq.1]
    · rw [if_neg hlen] at h
      by_cases hrf : ctx.replaceFails g' = true
      · rw [if_pos hrf] at h; exact Except.noConfusion h
      · rw [if_neg hrf] at h
        have heq := Except.ok.inj h
        simp only [Prod.mk.injEq] at heq
        rw [← heq.1]
        by_cases hgg : g' = g
        · subst hgg
          rcases hcase with hne | hok
          · exact absurd rfl hne
          · obtain ⟨rl, cl, hof2⟩ := (ownedZonesE_eq_ok ctx tab g' []).mp hok
            rw [hof] at hof2
            have ht := Except.ok.inj hof2
            have ht1 : t.1 = [] := by rw [ht]
            rw [ht1] at hlen
            simp at hlen
        · exact lookupGeom_updateGeom_ne idx g g' _ (fun hc => hgg hc.symm)

/-- The dissolve loop leaves the stored geometry of a county with an empty
final zone list untouched. -/
theorem dissolveLoop_preserve (ctx : Ctx) (tab : List (Int × Int)) (g : Int)
    (hg : ownedZonesE ctx tab g = .ok []) :
    ∀ (gs : List Int) (idx : List (Int × Geom)) (tr : List Stage)
      (finalIdx : List (Int × Geom)),
    (dissolveLoop ctx tab gs idx tr).2 = .ok finalIdx →
    lookupGeom finalIdx g = lookupGeom idx g := by
  intro gs
  induction gs with
  | nil =>
    intro idx tr finalIdx h
    rw [← Except.ok.inj h]
  | cons g0 gs ih =>
    intro idx tr finalIdx h
    simp only [dissolveLoop] at h
    rcases hcs : countyStep ctx tab idx g0 with e | ⟨idx', st⟩
    · simp only [hcs] at h; exact Except.noConfusion h
    · simp only [hcs] at h
      have hstep : lookupGeom idx' g = lookupGeom idx g := by
        by_cases hgg : g0 = g
        · exact countyStep_preserve ctx tab idx g0 g idx' st hcs (Or.inr hg)
        · exact countyStep_preserve ctx tab idx g0 g idx' st hcs (Or.inl hgg)
      exact (ih idx' (tr ++ st) finalIdx h).trans hstep

/-! ## Shape of a whole run -/

theorem run_eq_error_vect (inp : RunInput) (e : Err)
    (hb : borderZonesOf inp = .error e) :
    run inp = ⟨[.readRaster, .vectorize], .error e⟩ := by
  simp only [run, hb]

theorem run_eq_badcount (inp : RunInput) (zs : List Int)
    (hb : borderZonesOf inp = .ok zs) (h : inp.cnties.length ≠ 205) :
    run inp = ⟨[.readRaster, .vectorize, .readCounties, .sjoin, .countCheck],
      .error (.invalidCountyCount inp.cnties.length)⟩ := by
  simp only [run, hb]
  rw [if_neg h]

theorem run_eq_loop_error (inp : RunInput) (zs : List Int) (e : Err)
    (hb : borderZonesOf inp = .ok zs) (h : inp.cnties.length = 205)
    (hd : (dissolveLoop (ctxOf inp) (tabOf inp) inp.cnties
      (initIdx inp.cnties) []).2 = .error e) :
    run inp = ⟨[.readRaster, .vectorize, .readCounties, .sjoin, .countCheck]
        ++ (dissolveLoop (ctxOf inp) (tabOf inp) inp.cnties
          (initIdx inp.cnties) []).1,
      .error e⟩ := by
  simp only [run, hb]
  rw [if_pos h]
  simp only [hd]

theorem run_eq_loop_ok (inp : RunInput) (zs : List Int)
    (idx : List (Int × Geom)) (hb : borderZonesOf inp = .ok zs)
    (h : inp.cnties.length = 205)
    (hd : (dissolveLoop (ctxOf inp) (tabOf inp) inp.cnties
      (initIdx inp.cnties) []).2 = .ok idx) :
    run inp = ⟨[.readRaster, .vectorize, .readCounties, .sjoin, .countCheck]
        ++ (dissolveLoop (ctxOf inp) (tabOf inp) inp.cnties
          (initIdx inp.cnties) []).1 ++ [.write],
      .ok idx⟩ := by
  simp only [run, hb]
  rw [if_pos h]
  simp only [hd]

/-! ## Lemmas about the vectorizer -/

theorem valAt_toUInt8 (a : Grid) (i j : Nat) :
    valAt (toUInt8 a) (i, j) = valAt a (i, j) % 256 := by
  unfold valAt toUInt8
  simp only [List.getD_eq_getElem?_getD, List.getElem?_map]
  rcases ha : a[i]? with _ | row
  · simp [ha]
  · simp only [ha, Option.map_some', Option.getD_some]
    rcases hb : row[j]? with _ | v
    · simp [hb]
    · simp [hb]

theorem grow_mem_ok (ok : Nat × Nat → Bool) (all : List (Nat × Nat)) :
    ∀ (fuel : Nat) (todo comp : List (Nat × Nat)) (q : Nat × Nat),
    q ∈ grow ok all fuel todo comp → q ∈ comp ∨ ok q = true := by
  intro fuel
  induction fuel with
  | zero => intro todo comp q h; exact Or.inl h
  | succ fuel ih =>
    intro todo comp q h
    match todo with
    | [] => exact Or.inl h
    | p :: rest =>
      by_cases hcond : (comp.contains p || !ok p) = true
      · simp only [grow] at h
        rw [if_pos hcond] at h
        exact ih rest comp q h
      · simp only [grow] at h
        rw [if_neg hcond] at h
        have hokp : ok p = true := by
          by_contra hnp
          apply hcond
          rw [Bool.or_eq_true]
          exact Or.inr (by rw [Bool.not_eq_true']
                           exact Bool.eq_false_iff.mpr hnp)
        rcases ih _ _ q h with hc | hok
        · rcases List.mem_append.mp hc with h1 | h1
          · exact Or.inl h1
          · rw [List.mem_singleton] at h1
            subst h1
            exact Or.inr hokp
        · exact Or.inr hok

theorem scanComps_masked (a : Grid) :
    ∀ (l visited : List (Nat × Nat)) (acc : List (List (Nat × Nat))),
    (∀ c ∈ acc, ∀ q ∈ c, maskAt a q = true) →
    ∀ c ∈ scanComps a l visited acc, ∀ q ∈ c, maskAt a q = true := by
  intro l
  induction l with
  | nil => intro visited acc hacc c hc q hq; exact hacc c hc q hq
  | cons p rest ih =>
    intro visited acc hacc c hc q hq
    simp only [scanComps] at hc
    by_cases hcond : (visited.contains p || !maskAt a p) = true
    · rw [if_pos hcond] at hc
      exact ih visited acc hacc c hc q hq
    · rw [if_neg hcond] at hc
      refine ih _ _ ?_ c hc q hq
      intro c' hc' q' hq'
      rcases List.mem_append.mp hc' with h1 | h1
      · exact hacc c' h1 q' hq'
      · rw [List.mem_singleton] at h1
        subst h1
        rcases grow_mem_ok _ _ _ _ _ q' hq' with hfalse | hok
        · cases hfalse
        · rw [Bool.and_eq_true] at hok
          exact hok.1

/-- Every cell of every vectorized region lies in the non-zero mask. -/
theorem comp_masked (a : Grid) (comp : List (Nat × Nat))
    (hc : comp ∈ componentsOf a) (q : Nat × Nat) (hq : q ∈ comp) :
    maskAt a q = true :=
  scanComps_masked a (cellsOf a) [] []
    (fun c hc' => absurd hc' (List.not_mem_nil c)) comp hc q hq

/-! ## Concrete instances used to evaluate the model -/

/-- Two counties whose authoritative overlays with zone 9 both exist but have
zero area: the topological join claims adjacency yet the geometric area is
zero. -/
def ctx3 : Ctx := ⟨[1, 2], fun _ _ => true, fun _ _ => 0, fun _ => false⟩

def tab3 : List (Int × Int) := [(1, 9), (2, 9)]

/-- A county whose geometry-replace step fails. -/
def ctx4 : Ctx := ⟨[1, 2], fun _ _ => true, fun _ _ => 3, fun g => g == 1⟩

def tab4 : List (Int × Int) := [(1, 4)]

/-- Zone 7 touches counties 1 and 2; county 1 has the strictly larger
authoritative overlay area (10 against 4). -/
def ctx2 : Ctx :=
  ⟨[1, 2], fun _ _ => true, fun c _ => if c == 1 then 10 else 4, fun _ => false⟩

def tab2 : List (Int × Int) := [(1, 7), (2, 7)]

/-- Zone 5 touches exactly one county. -/
def ctx6 : Ctx := ⟨[1], fun _ _ => true, fun _ _ => 2, fun _ => false⟩

def tab6 : List (Int × Int) := [(1, 5)]

def cnties204 : List Int := (List.range 204).map (fun n => (n : Int) + 1)

/-- A run input with one genuine border pixel but only 204 counties. -/
def inp5 : RunInput :=
  ⟨[[5]], [[7]], 7, cnties204, cnties204, fun _ _ => false, fun _ _ => true,
    fun _ _ => 1, fun _ => false⟩

/-- A run input whose masked extent raster has no non-zero cell. -/
def inp7 : RunInput :=
  ⟨[[0, 0], [0, 0]], [[0, 0], [0, 0]], 0, [1], [1], fun _ _ => true,
    fun _ _ => true, fun _ _ => 1, fun _ => false⟩

/-- A small well-formed run input. -/
def inp8 : RunInput :=
  ⟨[[5]], [[7]], 7, [1], [1], fun _ _ => true, fun _ _ => true,
    fun _ _ => 1, fun _ => false⟩

def cnties205 : List Int := (List.range 205).map (fun n => (n : Int) + 1)

/-- A full 205-county run in which no county touches any border zone. -/
def inp9 : RunInput :=
  ⟨[[5]], [[7]], 7, cnties205, cnties205, fun _ _ => false, fun _ _ => true,
    fun _ _ => 1, fun _ => false⟩

/-! ## The claims -/

/-- C1. For every zone, the number of counties that retain the zone in their
zones-to-dissolve list after resolution is exactly 0 or 1. -/
theorem claim_C1 (ctx : Ctx) (tab : List (Int × Int)) (geoids : List Int)
    (z : Int) :
    ((geoids.dedup).filter (fun g => retainsB ctx tab g z)).length = 0 ∨
    ((geoids.dedup).filter (fun g => retainsB ctx tab g z)).length = 1 := by
  have hle :
      ((geoids.dedup).filter (fun g => retainsB ctx tab g z)).length ≤ 1 :=
    filter_length_le_one (List.nodup_dedup geoids)
      (fun a b ha hb => retains_unique ctx tab z a b ha hb)
  omega

/-- C2. For a zone touching more than one county, the county whose
authoritative geometry has the strictly maximal intersection area with the
zone is returned by `shared_area`, retains the zone in its own dissolve
list, and every other touching county excludes the zone from its list. -/
theorem claim_C2 (ctx : Ctx) (tab : List (Int × Int)) (z A : Int)
    (hbig : 1 < (touching tab z).length)
    (hA : A ∈ touching tab z)
    (hAo : A ∈ ctx.origCnties)
    (hAn : ctx.interNonempty A z = true)
    (hmax : ∀ c ∈ touching tab z, c ≠ A →
      ctx.interArea c z < ctx.interArea A z) :
    winnerOf ctx tab z = some A ∧
    (∀ l, ownedZonesE ctx tab A = .ok l → z ∈ l) ∧
    (∀ B l, B ∈ touching tab z → B ≠ A →
      ownedZonesE ctx tab B = .ok l → z ∉ l) := by
  have hwin : winnerOf ctx tab z = some A := by
    unfold winnerOf
    apply shared_area_strict_max
    · exact overlayRows_mem_of ctx (touching tab z) z A hAo hA hAn
    · intro q hq hne
      obtain ⟨hqo, hqoc, hqarea⟩ := mem_overlayRows ctx (touching tab z) z q hq
      rw [hqarea]
      exact hmax q.1 hqoc hne
  refine ⟨hwin, ?_, ?_⟩
  · intro l hl
    obtain ⟨rl, cl, hof⟩ := (ownedZonesE_eq_ok ctx tab A l).mp hl
    exact ((ownedFull_char ctx tab A l rl cl hof z).1).mpr
      ⟨(mem_zonesOf_iff tab A z).mpr ((mem_touching_iff tab z A).mp hA),
        Or.inr hwin⟩
  · intro B l hB hBne hl hzl
    obtain ⟨rl, cl, hof⟩ := (ownedZonesE_eq_ok ctx tab B l).mp hl
    obtain ⟨hz, hcond⟩ := ((ownedFull_char ctx tab B l rl cl hof z).1).mp hzl
    rcases hcond with hle | heq
    · exact absurd hbig (Nat.not_lt.mpr hle)
    · rw [hwin] at heq
      exact hBne (Option.some.inj heq).symm

theorem claim_C2_witness :
    winnerOf ctx2 tab2 7 = some 1 ∧ (7 : Int) ∈ ([7] : List Int) ∧
      (7 : Int) ∉ ([] : List Int) := by
  have h := claim_C2 ctx2 tab2 7 1 (by decide) (by decide) (by decide) rfl
    (by decide)
  exact ⟨h.1, h.2.1 [7] rfl, h.2.2 2 [] (by decide) (by decide) rfl⟩

/-- C3. Evaluation at the failing input: zone 9 touches counties 1 and 2,
and the overlay areas of both candidates are zero, so the selected owner's
shared area is exactly zero.  The code does not abort: `shared_area` returns
GEOID 1 (the `g_sb == 0` test at line 119 compares the returned GEOID with
0, not the area, and is only reached in the `g_sb != g` branch), the loop
completes, and the zone is dissolved into county 1. -/
theorem claim_C3_eval :
    winnerOf ctx3 tab3 9 = some 1 ∧ ctx3.interArea 1 9 = 0 ∧
    (dissolveLoop ctx3 tab3 [1, 2] (initIdx [1, 2]) []).2 =
      .ok [(1, Geom.union (Geom.base 1) [9]), (2, Geom.base 2)] :=
  ⟨rfl, rfl, rfl⟩

/-- C4. Evaluation at the failing input: county 1 owns zone 4 and its
geometry-replace step fails.  The except branch (line 139) evaluates the
unbound name `index` and the run aborts with NameError instead of appending
a fallback record and continuing with county 2. -/
theorem claim_C4_eval :
    (dissolveLoop ctx4 tab4 [1, 2] (initIdx [1, 2]) []).2 =
      .error .nameErrorIndex :=
  rfl

set_option maxRecDepth 40000 in
/-- C5, counterexample to the claim as stated: on an input whose county
layer has 204 counties, the run does raise the county-count error, but only
after vectorization and the spatial join have been performed. -/
theorem claim_C5_counterexample :
    Stage.vectorize ∈ (run inp5).trace ∧ Stage.sjoin ∈ (run inp5).trace ∧
    (run inp5).result = .error (.invalidCountyCount 204) :=
  ⟨by decide, by decide, rfl⟩

/-- C5, amended: on an input whose county layer does not have exactly 205
counties the run fails (never succeeds), performs no dissolve and never
writes — but vectorization and the spatial join may already have run. -/
theorem claim_C5_amended (inp : RunInput) (h : inp.cnties.length ≠ 205) :
    isOkE (run inp).result = false ∧
    (∀ g, Stage.dissolve g ∉ (run inp).trace) ∧
    Stage.write ∉ (run inp).trace := by
  rcases hb : borderZonesOf inp with e | zs
  · rw [run_eq_error_vect inp e hb]
    exact ⟨rfl, fun g => by simp, by simp⟩
  · rw [run_eq_badcount inp zs hb h]
    exact ⟨rfl, fun g => by simp, by simp⟩

set_option maxRecDepth 40000 in
theorem claim_C5_witness :
    isOkE (run inp5).result = false ∧
    Stage.dissolve 1 ∉ (run inp5).trace ∧
    Stage.write ∉ (run inp5).trace := by
  have h := claim_C5_amended inp5 (by decide)
  exact ⟨h.1, h.2.1 1, h.2.2⟩

/-- C6. A zone whose adjacency lists exactly one county is kept by that
county: it is in the final zones-to-dissolve list, never in `remove_zones`,
no `shared_area` computation is performed for it, and the county's
processing ends in a dissolve. -/
theorem claim_C6 (ctx : Ctx) (tab : List (Int × Int)) (g z : Int)
    (h : touching tab z = [g]) :
    (∀ fl rl cl, ownedFull ctx tab g = .ok (fl, rl, cl) →
      z ∈ fl ∧ z ∉ rl ∧ z ∉ cl) ∧
    (∀ idx out, countyStep ctx tab idx g = .ok out →
      out.2 = [Stage.dissolve g]) := by
  have hzin : z ∈ zonesOf tab g := by
    apply (mem_zonesOf_iff tab g z).mpr
    apply (mem_touching_iff tab z g).mp
    rw [h]
    exact List.mem_singleton.mpr rfl
  have hone : (touching tab z).length = 1 := by rw [h]; rfl
  have hsmall : (touching tab z).length ≤ 1 := Nat.le_of_eq hone
  constructor
  · intro fl rl cl hof
    have hc := ownedFull_char ctx tab g fl rl cl hof z
    refine ⟨hc.1.mpr ⟨hzin, Or.inl hsmall⟩, ?_, ?_⟩
    · intro hzr
      obtain ⟨_, hbig, _⟩ := hc.2.1.mp hzr
      exact absurd hbig (Nat.not_lt.mpr hsmall)
    · intro hzc
      obtain ⟨_, hbig⟩ := hc.2.2.mp hzc
      exact absurd hbig (Nat.not_lt.mpr hsmall)
  · intro idx out hcs
    unfold countyStep at hcs
    rcases hof : ownedFull ctx tab g with e | t
    · simp only [hof] at hcs
      exact Except.noConfusion hcs
    · simp only [hof] at hcs
      have hz1 : z ∈ t.1 := by
        have hc := ownedFull_char ctx tab g t.1 t.2.1 t.2.2 (by rw [hof]) z
        exact hc.1.mpr ⟨hzin, Or.inl hsmall⟩
      have hlen : ¬ t.1.length = 0 := by
        intro hc0
        rw [List.length_eq_zero.mp hc0] at hz1
        cases hz1
      rw [if_neg hlen] at hcs
      by_cases hrf : ctx.replaceFails g = true
      · rw [if_pos hrf] at hcs
        exact Except.noConfusion hcs
      · rw [if_neg hrf] at hcs
        rw [← Except.ok.inj hcs]

theorem claim_C6_witness :
    ((5 : Int) ∈ ([5] : List Int) ∧ (5 : Int) ∉ ([] : List Int) ∧
      (5 : Int) ∉ ([] : List Int)) ∧
    (([((1 : Int), Geom.union (Geom.base 1) [5])],
        [Stage.dissolve (1 : Int)]) :
      List (Int × Geom) × List Stage).2 = [Stage.dissolve (1 : Int)] := by
  have h := claim_C6 ctx6 tab6 1 5 (by decide)
  exact ⟨h.1 [5] [] [] rfl,
    h.2 (initIdx [1])
      ([((1 : Int), Geom.union (Geom.base 1) [5])],
        [Stage.dissolve (1 : Int)]) rfl⟩

/-- C7. Evaluation at the failing input: a masked raster with no non-zero
cell.  `vectorizeRaster` raises on the empty GeoDataFrame (lines 28–31 of
the source, whose own comment says the empty case is unhandled) instead of
returning an empty zone set, and the run aborts without writing. -/
theorem claim_C7_eval :
    vectorizeRaster [[0, 0], [0, 0]] = .error .emptyGdf ∧
    (run inp7).result = .error .emptyGdf ∧
    Stage.write ∉ (run inp7).trace :=
  ⟨rfl, rfl, by decide⟩

/-- C8. The counter `ct` of the per-zone loop never exceeds the zone count,
so no run ever ends with the `Infinite loop?` error. -/
theorem claim_C8 (inp : RunInput) :
    (run inp).result ≠ Except.error Err.infiniteLoop := by
  intro hc
  rcases hb : borderZonesOf inp with e | zs
  · rw [run_eq_error_vect inp e hb] at hc
    have he : e = Err.infiniteLoop := Except.error.inj hc
    have hee : e = Err.emptyGdf := vectorizeRaster_error (aryOf inp) e hb
    rw [he] at hee
    exact Err.noConfusion hee
  · by_cases hcnt : inp.cnties.length = 205
    · rcases hdl : (dissolveLoop (ctxOf inp) (tabOf inp) inp.cnties
          (initIdx inp.cnties) []).2 with e | idx
      · rw [run_eq_loop_error inp zs e hb hcnt hdl] at hc
        have he : e = Err.infiniteLoop := Except.error.inj hc
        rw [he] at hdl
        exact dissolveLoop_no_inf (ctxOf inp) (tabOf inp) inp.cnties
          (initIdx inp.cnties) [] hdl
      · rw [run_eq_loop_ok inp zs idx hb hcnt hdl] at hc
        exact Except.noConfusion hc
    · rw [run_eq_badcount inp zs hb hcnt] at hc
      exact Err.noConfusion (Except.error.inj hc)

theorem claim_C8_witness :
    (run inp8).result ≠ Except.error Err.infiniteLoop :=
  claim_C8 inp8

/-- C9. A county whose zones-to-dissolve list resolves to empty keeps its
input geometry in the final written index. -/
theorem claim_C9 (inp : RunInput) (g : Int) (finalIdx : List (Int × Geom))
    (hg : ownedZonesE (ctxOf inp) (tabOf inp) g = .ok [])
    (hr : (run inp).result = .ok finalIdx) :
    lookupGeom finalIdx g = lookupGeom (initIdx inp.cnties) g ∧
    (g ∈ inp.cnties → lookupGeom finalIdx g = some (Geom.base g)) := by
  have hd : (dissolveLoop (ctxOf inp) (tabOf inp) inp.cnties
      (initIdx inp.cnties) []).2 = .ok finalIdx := by
    rcases hb : borderZonesOf inp with e | zs
    · rw [run_eq_error_vect inp e hb] at hr
      exact Except.noConfusion hr
    · by_cases hcnt : inp.cnties.length = 205
      · rcases hdl : (dissolveLoop (ctxOf inp) (tabOf inp) inp.cnties
            (initIdx inp.cnties) []).2 with e | idx
        · rw [run_eq_loop_error inp zs e hb hcnt hdl] at hr
          exact Except.noConfusion hr
        · rw [run_eq_loop_ok inp zs idx hb hcnt hdl] at hr
          exact hr
      · rw [run_eq_badcount inp zs hb hcnt] at hr
        exact Except.noConfusion hr
  have hpres := dissolveLoop_preserve (ctxOf inp) (tabOf inp) g hg
    inp.cnties (initIdx inp.cnties) [] finalIdx hd
  refine ⟨hpres, fun hgin => ?_⟩
  rw [hpres]
  exact lookupGeom_initIdx inp.cnties g hgin

set_option maxRecDepth 100000 in
theorem claim_C9_witness :
    lookupGeom (initIdx cnties205) 3 = lookupGeom (initIdx cnties205) 3 ∧
    lookupGeom (initIdx cnties205) 3 = some (Geom.base 3) := by
  have h := claim_C9 inp9 3 (initIdx cnties205) rfl rfl
  exact ⟨h.1, h.2 (by decide)⟩

/-- C10. `vectorizeRaster` casts cell values to unsigned 8-bit before
building the vectorization mask: a cell is in the mask exactly when its
value is non-zero modulo 256, and a cell whose value reduces to 0 modulo 256
(in particular a positive multiple of 256) belongs to no vectorized zone. -/
theorem claim_C10 (a : Grid) (i j : Nat) :
    maskAt (toUInt8 a) (i, j) = (valAt a (i, j) % 256 != 0) ∧
    (valAt a (i, j) % 256 = 0 →
      ∀ comp ∈ componentsOf (toUInt8 a), (i, j) ∉ comp) := by
  have hval : valAt (toUInt8 a) (i, j) = valAt a (i, j) % 256 :=
    valAt_toUInt8 a i j
  constructor
  · unfold maskAt
    rw [hval]
  · intro h0 comp hcomp hmem
    have hmask := comp_masked (toUInt8 a) comp hcomp (i, j) hmem
    unfold maskAt at hmask
    rw [hval, h0] at hmask
    simp at hmask

theorem claim_C10_witness :
    maskAt (toUInt8 [[256, 3]]) (0, 0) = (valAt [[256, 3]] (0, 0) % 256 != 0)
      ∧ ((0, 0) : Nat × Nat) ∉ ([((0 : Nat), (1 : Nat))] :
        List (Nat × Nat)) := by
  have h := claim_C10 [[256, 3]] 0 0
  exact ⟨h.1, h.2 (by decide) [((0 : Nat), (1 : Nat))] (by decide)⟩

end CountyBoundaries
